import Mathlib

/-!
# Geometry primitives (`src/point.h`)

A shallow embedding of the value types `point`, `tripoint`, `rectangle` and `box`
of `src/point.h`, with their operators, `rotate`, the containment predicates,
`shrink` and the two `std::hash` specialisations.

## Integers

The C++ fields are `int` (32 bits).  A coordinate is an `Int` here and every
arithmetic operator takes the reading of `int` arithmetic as a parameter
(`IntSem`):

* `IntSem.unbounded`: the mathematical result, i.e. what the code computes while
  no operation overflows;
* `IntSem.wrapping`: the two's-complement result, reduced into
  `[INT_MIN, INT_MAX]` after every `+`, `-` and `*`.

Division by zero and `INT_MIN / -1` have no value in C++; `int_div` returns
`none` there.  `std::size_t` is the 64-bit unsigned type.
-/

namespace Cata

/-! ## Machine integers -/

/-- Smallest value of the 32-bit `int` (`INT_MIN` of `<climits>`). -/
def INT_MIN : Int := -2147483648

/-- Largest value of the 32-bit `int` (`INT_MAX` of `<climits>`). -/
def INT_MAX : Int := 2147483647

/-- The two readings of `int` arithmetic. -/
inductive IntSem where
  | unbounded
  | wrapping
  deriving DecidableEq, Repr

/-- Two's-complement reduction of an integer into `[INT_MIN, INT_MAX]`. -/
def wrap32 (v : Int) : Int := (v + 2147483648) % 4294967296 - 2147483648

/-- Result of an `int` operation whose mathematical value is `v`. -/
def IntSem.norm : IntSem → Int → Int
  | IntSem.unbounded, v => v
  | IntSem.wrapping, v => wrap32 v

/-- The value `v` is representable: an `int` operation yielding it does not overflow. -/
def IntSem.fits (m : IntSem) (v : Int) : Prop := m.norm v = v

instance (m : IntSem) (v : Int) : Decidable (m.fits v) := by
  unfold IntSem.fits; infer_instance

/-- `a + b` on `int`. -/
def int_add (m : IntSem) (a b : Int) : Int := m.norm (a + b)

/-- `a - b` on `int`. -/
def int_sub (m : IntSem) (a b : Int) : Int := m.norm (a - b)

/-- `-a` on `int`. -/
def int_neg (m : IntSem) (a : Int) : Int := m.norm (-a)

/-- `a * b` on `int`. -/
def int_mul (m : IntSem) (a b : Int) : Int := m.norm (a * b)

/-- `a / b` on `int`: the quotient truncated toward zero; no value for a zero
divisor or a quotient that is not representable (`INT_MIN / -1`). -/
def int_div (m : IntSem) (a b : Int) : Option Int :=
  if b = 0 then none
  else if m.fits (Int.tdiv a b) then some (Int.tdiv a b)
  else none

/-- Specification of division truncating toward zero: `q` is the truncated quotient of
`c` by `s` when the remainder `c - q * s` is zero or has the sign of `c`, and is smaller
than `s` in magnitude. -/
def is_truncated_quotient (c s q : Int) : Prop :=
  (c - q * s = 0 ∨ (0 < c - q * s ∧ 0 < c) ∨ (c - q * s < 0 ∧ c < 0)) ∧
  (c - q * s).natAbs < s.natAbs

instance (c s q : Int) : Decidable (is_truncated_quotient c s q) := by
  unfold is_truncated_quotient; infer_instance

/-- Modulus of `std::size_t` arithmetic, `2^64`. -/
def SIZE_MOD : Nat := 18446744073709551616

/-- Conversion of an `int` to `std::size_t`: the value modulo `2^64`. -/
def to_size_t (v : Int) : Nat := (v % 18446744073709551616).toNat

/-! ## point -/

/-- The `struct point`. -/
structure point where
  x : Int
  y : Int
  deriving DecidableEq, Repr

/-- All coordinates of the point are representable `int` values. -/
def point.valid (m : IntSem) (p : point) : Prop := m.fits p.x ∧ m.fits p.y

instance (m : IntSem) (p : point) : Decidable (p.valid m) := by
  unfold point.valid; infer_instance

/-- The `point::operator+`. -/
def point.add (m : IntSem) (p rhs : point) : point :=
  ⟨int_add m p.x rhs.x, int_add m p.y rhs.y⟩

/-- The `point::operator+=`, returning the updated object. -/
def point.add_assign (m : IntSem) (p rhs : point) : point :=
  let p := { p with x := int_add m p.x rhs.x }
  let p := { p with y := int_add m p.y rhs.y }
  p

/-- The unary `point::operator-`. -/
def point.neg (m : IntSem) (p : point) : point :=
  ⟨int_neg m p.x, int_neg m p.y⟩

/-- The binary `point::operator-`. -/
def point.sub (m : IntSem) (p rhs : point) : point :=
  ⟨int_sub m p.x rhs.x, int_sub m p.y rhs.y⟩

/-- The `point::operator-=`, returning the updated object. -/
def point.sub_assign (m : IntSem) (p rhs : point) : point :=
  let p := { p with x := int_sub m p.x rhs.x }
  let p := { p with y := int_sub m p.y rhs.y }
  p

/-- The `point::operator*`. -/
def point.mul (m : IntSem) (p : point) (rhs : Int) : point :=
  ⟨int_mul m p.x rhs, int_mul m p.y rhs⟩

/-- The `point::operator*=`, returning the updated object. -/
def point.mul_assign (m : IntSem) (p : point) (rhs : Int) : point :=
  let p := { p with x := int_mul m p.x rhs }
  let p := { p with y := int_mul m p.y rhs }
  p

/-- The `point::operator/`. -/
def point.div (m : IntSem) (p : point) (rhs : Int) : Option point :=
  match int_div m p.x rhs, int_div m p.y rhs with
  | some qx, some qy => some ⟨qx, qy⟩
  | _, _ => none

/-- The two `assert`s of `point::rotate`. -/
inductive AssertionFailure where
  | turns_ge_0
  | turns_le_4
  deriving DecidableEq, Repr

deriving instance DecidableEq for Except

/-- The `point::rotate`.  The two `assert`s are active (no `NDEBUG`): a failed `assert`
is the error result, and the `switch` falls through to `return *this` for the values of
`turns` it does not list. -/
def point.rotate (m : IntSem) (p : point) (turns : Int) (dim : point) :
    Except AssertionFailure point :=
  if ¬ (turns ≥ 0) then Except.error AssertionFailure.turns_ge_0
  else if ¬ (turns ≤ 4) then Except.error AssertionFailure.turns_le_4
  else if turns = 1 then
    Except.ok ⟨int_sub m (int_sub m dim.y p.y) 1, p.x⟩
  else if turns = 2 then
    Except.ok ⟨int_sub m (int_sub m dim.x p.x) 1, int_sub m (int_sub m dim.y p.y) 1⟩
  else if turns = 3 then
    Except.ok ⟨p.y, int_sub m (int_sub m dim.x p.x) 1⟩
  else Except.ok p

/-- Default value `{ 1, 1 }` of the parameter `dim` of `point::rotate`. -/
def rotate_default_dim : point := ⟨1, 1⟩

/-- The `std::hash<point>::operator()`. -/
def point.hash (k : point) : Nat :=
  let a : Nat := 2862933555777941757
  let result : Nat := to_size_t k.y
  let result : Nat := (result * a) % SIZE_MOD
  let result : Nat := (result + to_size_t k.x) % SIZE_MOD
  result

/-- The `operator<( const point &, const point & )`. -/
def point.lt (a b : point) : Bool :=
  decide (a.x < b.x) || (decide (a.x = b.x) && decide (a.y < b.y))

/-- The `operator==( const point &, const point & )`. -/
def point.eq (a b : point) : Bool :=
  decide (a.x = b.x) && decide (a.y = b.y)

/-- The `operator!=( const point &, const point & )`. -/
def point.ne (a b : point) : Bool := !(point.eq a b)

/-! ## tripoint -/

/-- The `struct tripoint`. -/
structure tripoint where
  x : Int
  y : Int
  z : Int
  deriving DecidableEq, Repr

/-- The constructor `tripoint( const point &p, int Z )`. -/
def tripoint.of_point (p : point) (Z : Int) : tripoint := ⟨p.x, p.y, Z⟩

/-- All coordinates of the tripoint are representable `int` values. -/
def tripoint.valid (m : IntSem) (p : tripoint) : Prop :=
  m.fits p.x ∧ m.fits p.y ∧ m.fits p.z

instance (m : IntSem) (p : tripoint) : Decidable (p.valid m) := by
  unfold tripoint.valid; infer_instance

/-- The `tripoint::operator+( const tripoint & )`. -/
def tripoint.add (m : IntSem) (p rhs : tripoint) : tripoint :=
  ⟨int_add m p.x rhs.x, int_add m p.y rhs.y, int_add m p.z rhs.z⟩

/-- The `tripoint::operator-( const tripoint & )`. -/
def tripoint.sub (m : IntSem) (p rhs : tripoint) : tripoint :=
  ⟨int_sub m p.x rhs.x, int_sub m p.y rhs.y, int_sub m p.z rhs.z⟩

/-- The `tripoint::operator+=( const tripoint & )`, returning the updated object. -/
def tripoint.add_assign (m : IntSem) (p rhs : tripoint) : tripoint :=
  let p := { p with x := int_add m p.x rhs.x }
  let p := { p with y := int_add m p.y rhs.y }
  let p := { p with z := int_add m p.z rhs.z }
  p

/-- The unary `tripoint::operator-`. -/
def tripoint.neg (m : IntSem) (p : tripoint) : tripoint :=
  ⟨int_neg m p.x, int_neg m p.y, int_neg m p.z⟩

/-- The `tripoint::operator*`. -/
def tripoint.mul (m : IntSem) (p : tripoint) (rhs : Int) : tripoint :=
  ⟨int_mul m p.x rhs, int_mul m p.y rhs, int_mul m p.z rhs⟩

/-- The `tripoint::operator*=`, returning the updated object. -/
def tripoint.mul_assign (m : IntSem) (p : tripoint) (rhs : Int) : tripoint :=
  let p := { p with x := int_mul m p.x rhs }
  let p := { p with y := int_mul m p.y rhs }
  let p := { p with z := int_mul m p.z rhs }
  p

/-- The `tripoint::operator+( const point & )`. -/
def tripoint.add_point (m : IntSem) (p : tripoint) (rhs : point) : tripoint :=
  ⟨int_add m p.x rhs.x, int_add m p.y rhs.y, p.z⟩

/-- The `tripoint::operator-( const point & )`. -/
def tripoint.sub_point (m : IntSem) (p : tripoint) (rhs : point) : tripoint :=
  ⟨int_sub m p.x rhs.x, int_sub m p.y rhs.y, p.z⟩

/-- The `tripoint::operator+=( const point & )`, returning the updated object. -/
def tripoint.add_assign_point (m : IntSem) (p : tripoint) (rhs : point) : tripoint :=
  let p := { p with x := int_add m p.x rhs.x }
  let p := { p with y := int_add m p.y rhs.y }
  p

/-- The `tripoint::operator-=( const point & )`, returning the updated object. -/
def tripoint.sub_assign_point (m : IntSem) (p : tripoint) (rhs : point) : tripoint :=
  let p := { p with x := int_sub m p.x rhs.x }
  let p := { p with y := int_sub m p.y rhs.y }
  p

/-- The `tripoint::operator-=( const tripoint & )`, returning the updated object. -/
def tripoint.sub_assign (m : IntSem) (p rhs : tripoint) : tripoint :=
  let p := { p with x := int_sub m p.x rhs.x }
  let p := { p with y := int_sub m p.y rhs.y }
  let p := { p with z := int_sub m p.z rhs.z }
  p

/-- The `tripoint::xy`. -/
def tripoint.xy (p : tripoint) : point := ⟨p.x, p.y⟩

/-- The `std::hash<tripoint>::operator()`. -/
def tripoint.hash (k : tripoint) : Nat :=
  let a : Nat := 2862933555777941757
  let result : Nat := to_size_t k.z
  let result : Nat := (result * a) % SIZE_MOD
  let result : Nat := (result + to_size_t k.y) % SIZE_MOD
  let result : Nat := (result * a) % SIZE_MOD
  let result : Nat := (result + to_size_t k.x) % SIZE_MOD
  result

/-- The `operator==( const tripoint &, const tripoint & )`. -/
def tripoint.eq (a b : tripoint) : Bool :=
  decide (a.x = b.x) && decide (a.y = b.y) && decide (a.z = b.z)

/-- The `operator!=( const tripoint &, const tripoint & )`. -/
def tripoint.ne (a b : tripoint) : Bool := !(tripoint.eq a b)

/-- The `operator<( const tripoint &, const tripoint & )`. -/
def tripoint.lt (a b : tripoint) : Bool :=
  if a.x ≠ b.x then decide (a.x < b.x)
  else if a.y ≠ b.y then decide (a.y < b.y)
  else if a.z ≠ b.z then decide (a.z < b.z)
  else false

/-! ## rectangle and box -/

/-- The `struct rectangle`. -/
structure rectangle where
  p_min : point
  p_max : point
  deriving DecidableEq, Repr

/-- The `rectangle::contains_half_open`. -/
def rectangle.contains_half_open (r : rectangle) (p : point) : Bool :=
  decide (p.x ≥ r.p_min.x) && decide (p.x < r.p_max.x) &&
  decide (p.y ≥ r.p_min.y) && decide (p.y < r.p_max.y)

/-- The `rectangle::contains_inclusive`. -/
def rectangle.contains_inclusive (r : rectangle) (p : point) : Bool :=
  decide (p.x ≥ r.p_min.x) && decide (p.x ≤ r.p_max.x) &&
  decide (p.y ≥ r.p_min.y) && decide (p.y ≤ r.p_max.y)

/-- The `struct box`. -/
structure box where
  p_min : tripoint
  p_max : tripoint
  deriving DecidableEq, Repr

/-- The constructor `box( const rectangle &R, int Z1, int Z2 )`. -/
def box.of_rectangle (R : rectangle) (Z1 Z2 : Int) : box :=
  ⟨tripoint.of_point R.p_min Z1, tripoint.of_point R.p_max Z2⟩

/-- The `box::contains_half_open`. -/
def box.contains_half_open (b : box) (p : tripoint) : Bool :=
  decide (p.x ≥ b.p_min.x) && decide (p.x < b.p_max.x) &&
  decide (p.y ≥ b.p_min.y) && decide (p.y < b.p_max.y) &&
  decide (p.z ≥ b.p_min.z) && decide (p.z < b.p_max.z)

/-- The `box::contains_inclusive`. -/
def box.contains_inclusive (b : box) (p : tripoint) : Bool :=
  decide (p.x ≥ b.p_min.x) && decide (p.x ≤ b.p_max.x) &&
  decide (p.y ≥ b.p_min.y) && decide (p.y ≤ b.p_max.y) &&
  decide (p.z ≥ b.p_min.z) && decide (p.z ≤ b.p_max.z)

/-- The `tripoint::operator+=( const tripoint &rhs )` called with `rhs` bound to the
object itself (`t += t`): every statement reads `rhs` in the current state of `*this`. -/
def tripoint.add_assign_self (m : IntSem) (p : tripoint) : tripoint :=
  let p := { p with x := int_add m p.x p.x }
  let p := { p with y := int_add m p.y p.y }
  let p := { p with z := int_add m p.z p.z }
  p

/-- The `tripoint::operator-=( const tripoint &rhs )` called with `rhs` bound to the
object itself (`t -= t`): every statement reads `rhs` in the current state of `*this`. -/
def tripoint.sub_assign_self (m : IntSem) (p : tripoint) : tripoint :=
  let p := { p with x := int_sub m p.x p.x }
  let p := { p with y := int_sub m p.y p.y }
  let p := { p with z := int_sub m p.z p.z }
  p

/-- The object the parameter `const tripoint &amount` of `box::shrink` is bound to: a
tripoint outside the box (holding the value `v`), or one of the two corners of the box
itself, as in `b.shrink( b.p_min )`. -/
inductive box.amount_ref where
  | other (v : tripoint)
  | own_p_min
  | own_p_max
  deriving DecidableEq, Repr

/-- Value read through the reference `amount` while the box is in state `b`. -/
def box.amount_ref.read (b : box) : box.amount_ref → tripoint
  | box.amount_ref.other v => v
  | box.amount_ref.own_p_min => b.p_min
  | box.amount_ref.own_p_max => b.p_max

/-- The `box::shrink`, returning the updated box.  `amount` is a reference: the second
statement `p_max -= amount` reads it after `p_min += amount` has been executed, and a
statement whose right-hand side is the corner it updates runs as `t += t` (`t -= t`). -/
def box.shrink (m : IntSem) (b : box) (amount : box.amount_ref) : box :=
  let b := { b with p_min :=
    match amount with
    | box.amount_ref.other v => tripoint.add_assign m b.p_min v
    | box.amount_ref.own_p_min => tripoint.add_assign_self m b.p_min
    | box.amount_ref.own_p_max => tripoint.add_assign m b.p_min b.p_max }
  let b := { b with p_max :=
    match amount with
    | box.amount_ref.other v => tripoint.sub_assign m b.p_max v
    | box.amount_ref.own_p_min => tripoint.sub_assign m b.p_max b.p_min
    | box.amount_ref.own_p_max => tripoint.sub_assign_self m b.p_max }
  b

/-! ## Named constants -/

/-- The `eight_horizontal_neighbors` array. -/
def eight_horizontal_neighbors : List tripoint :=
  [⟨-1, -1, 0⟩, ⟨0, -1, 0⟩, ⟨1, -1, 0⟩, ⟨-1, 0, 0⟩, ⟨1, 0, 0⟩, ⟨-1, 1, 0⟩, ⟨0, 1, 0⟩,
    ⟨1, 1, 0⟩]

/-- The constant `tripoint_min`. -/
def tripoint_min : tripoint := ⟨INT_MIN, INT_MIN, INT_MIN⟩

/-- The constant `tripoint_zero`. -/
def tripoint_zero : tripoint := ⟨0, 0, 0⟩

/-- The constant `tripoint_max`. -/
def tripoint_max : tripoint := ⟨INT_MAX, INT_MAX, INT_MAX⟩

/-- The constant `point_min`. -/
def point_min : point := ⟨tripoint_min.x, tripoint_min.y⟩

/-- The constant `point_zero`. -/
def point_zero : point := ⟨tripoint_zero.x, tripoint_zero.y⟩

/-- The constant `point_max`. -/
def point_max : point := ⟨tripoint_max.x, tripoint_max.y⟩

/-- The constant `point_north`. -/
def point_north : point := ⟨0, -1⟩

/-- The constant `point_north_east`. -/
def point_north_east : point := ⟨1, -1⟩

/-- The constant `point_east`. -/
def point_east : point := ⟨1, 0⟩

/-- The constant `point_south_east`. -/
def point_south_east : point := ⟨1, 1⟩

/-- The constant `point_south`. -/
def point_south : point := ⟨0, 1⟩

/-- The constant `point_south_west`. -/
def point_south_west : point := ⟨-1, 1⟩

/-- The constant `point_west`. -/
def point_west : point := ⟨-1, 0⟩

/-- The constant `point_north_west`. -/
def point_north_west : point := ⟨-1, -1⟩

/-- The `four_adjacent_offsets` array. -/
def four_adjacent_offsets : List point :=
  [point_north, point_east, point_south, point_west]

/-- The constant `tripoint_above`. -/
def tripoint_above : tripoint := ⟨0, 0, 1⟩

/-- The constant `tripoint_below`. -/
def tripoint_below : tripoint := ⟨0, 0, -1⟩

/-- The constant `box_zero`. -/
def box_zero : box := ⟨tripoint_zero, tripoint_zero⟩

/-- The constant `rectangle_zero`. -/
def rectangle_zero : rectangle := ⟨point_zero, point_zero⟩

/-! ## Specification-side enumerations -/

/-- Specification of a half-open rectangle as a finite set: the points whose `x` lies in
`[p_min.x, p_max.x)` and whose `y` lies in `[p_min.y, p_max.y)`. -/
def rectangle.half_open_points (r : rectangle) : Finset point :=
  Finset.image (fun c : Int × Int => point.mk c.1 c.2)
    (Finset.Ico r.p_min.x r.p_max.x ×ˢ Finset.Ico r.p_min.y r.p_max.y)

/-- Specification of a half-open box as a finite set: the tripoints whose coordinate on
each axis lies in `[p_min, p_max)` of that axis. -/
def box.half_open_points (b : box) : Finset tripoint :=
  Finset.image (fun c : Int × Int × Int => tripoint.mk c.1 c.2.1 c.2.2)
    (Finset.Ico b.p_min.x b.p_max.x ×ˢ
      (Finset.Ico b.p_min.y b.p_max.y ×ˢ Finset.Ico b.p_min.z b.p_max.z))

/-! ## Machine-integer lemmas -/

theorem wrap32_of_range (v : Int) (h1 : INT_MIN ≤ v) (h2 : v ≤ INT_MAX) : wrap32 v = v := by
  unfold INT_MIN at h1; unfold INT_MAX at h2; unfold wrap32; omega

theorem wrap32_range (v : Int) : INT_MIN ≤ wrap32 v ∧ wrap32 v ≤ INT_MAX := by
  unfold INT_MIN INT_MAX wrap32; omega

theorem fits_wrapping_iff (v : Int) :
    IntSem.wrapping.fits v ↔ INT_MIN ≤ v ∧ v ≤ INT_MAX := by
  simp only [IntSem.fits, IntSem.norm, INT_MIN, INT_MAX, wrap32]; omega

theorem fits_unbounded (v : Int) : IntSem.unbounded.fits v := rfl

theorem norm_of_fits (m : IntSem) (v : Int) (h : m.fits v) : m.norm v = v := h

theorem norm_sub_norm_left (m : IntSem) (a b : Int) :
    m.norm (m.norm a - b) = m.norm (a - b) := by
  cases m
  · rfl
  · simp only [IntSem.norm, wrap32]; omega

theorem norm_add_norm_left (m : IntSem) (a b : Int) :
    m.norm (m.norm a + b) = m.norm (a + b) := by
  cases m
  · rfl
  · simp only [IntSem.norm, wrap32]; omega

theorem norm_add_norm_right (m : IntSem) (a b : Int) :
    m.norm (a + m.norm b) = m.norm (a + b) := by
  cases m
  · rfl
  · simp only [IntSem.norm, wrap32]; omega

/-! ## Rotation -/

/-- C1: for every point `p`, every `dim` and every `turns` in `0..4`, `p.rotate(turns, dim)`
returns the entry of the table: `p` for 0 and 4, `(dim.y - y - 1, x)` for 1,
`(dim.x - x - 1, dim.y - y - 1)` for 2 and `(y, dim.x - x - 1)` for 3, each expression
being the `int` result of the mathematical value (the value itself when nothing
overflows); `point(1,2).rotate(1, {5,5}) == point(2,1)`,
`point(1,2).rotate(2, {5,5}) == point(3,2)` and `rotate(4, dim) == rotate(0, dim)`. -/
theorem rotate_table (m : IntSem) (p dim : point) :
    p.rotate m 0 dim = Except.ok p ∧
    p.rotate m 4 dim = Except.ok p ∧
    p.rotate m 1 dim = Except.ok ⟨m.norm (dim.y - p.y - 1), p.x⟩ ∧
    p.rotate m 2 dim = Except.ok ⟨m.norm (dim.x - p.x - 1), m.norm (dim.y - p.y - 1)⟩ ∧
    p.rotate m 3 dim = Except.ok ⟨p.y, m.norm (dim.x - p.x - 1)⟩ ∧
    (point.mk 1 2).rotate m 1 ⟨5, 5⟩ = Except.ok ⟨2, 1⟩ ∧
    (point.mk 1 2).rotate m 2 ⟨5, 5⟩ = Except.ok ⟨3, 2⟩ ∧
    p.rotate m 4 dim = p.rotate m 0 dim := by
  refine ⟨?_, ?_, ?_, ?_, ?_, ?_, ?_, ?_⟩
  · simp [point.rotate]
  · simp [point.rotate]
  · simp [point.rotate, int_sub, norm_sub_norm_left]
  · simp [point.rotate, int_sub, norm_sub_norm_left]
  · simp [point.rotate, int_sub, norm_sub_norm_left]
  · cases m <;> simp [point.rotate, int_sub, IntSem.norm, wrap32]
  · cases m <;> simp [point.rotate, int_sub, IntSem.norm, wrap32]
  · simp [point.rotate]

/-! ## Region containment -/

/-- C2: `contains_half_open` holds iff `min <= coord < max` on every axis and
`contains_inclusive` iff `min <= coord <= max` on every axis, for `rectangle` (x, y) and
for `box` (x, y, z); `rectangle({0,0},{3,3})` has `contains_half_open({3,1}) == false`,
`contains_inclusive({3,1}) == true` and `contains_half_open({2,2}) == true`. -/
theorem contains_iff_bounds (r : rectangle) (p : point) (b : box) (t : tripoint) :
    (r.contains_half_open p = true ↔
      (r.p_min.x ≤ p.x ∧ p.x < r.p_max.x) ∧ (r.p_min.y ≤ p.y ∧ p.y < r.p_max.y)) ∧
    (r.contains_inclusive p = true ↔
      (r.p_min.x ≤ p.x ∧ p.x ≤ r.p_max.x) ∧ (r.p_min.y ≤ p.y ∧ p.y ≤ r.p_max.y)) ∧
    (b.contains_half_open t = true ↔
      (b.p_min.x ≤ t.x ∧ t.x < b.p_max.x) ∧ (b.p_min.y ≤ t.y ∧ t.y < b.p_max.y) ∧
      (b.p_min.z ≤ t.z ∧ t.z < b.p_max.z)) ∧
    (b.contains_inclusive t = true ↔
      (b.p_min.x ≤ t.x ∧ t.x ≤ b.p_max.x) ∧ (b.p_min.y ≤ t.y ∧ t.y ≤ b.p_max.y) ∧
      (b.p_min.z ≤ t.z ∧ t.z ≤ b.p_max.z)) ∧
    (rectangle.mk ⟨0, 0⟩ ⟨3, 3⟩).contains_half_open ⟨3, 1⟩ = false ∧
    (rectangle.mk ⟨0, 0⟩ ⟨3, 3⟩).contains_inclusive ⟨3, 1⟩ = true ∧
    (rectangle.mk ⟨0, 0⟩ ⟨3, 3⟩).contains_half_open ⟨2, 2⟩ = true := by
  refine ⟨?_, ?_, ?_, ?_, ?_, ?_, ?_⟩
  · simp only [rectangle.contains_half_open, Bool.and_eq_true, decide_eq_true_eq, ge_iff_le]
    tauto
  · simp only [rectangle.contains_inclusive, Bool.and_eq_true, decide_eq_true_eq, ge_iff_le]
    tauto
  · simp only [box.contains_half_open, Bool.and_eq_true, decide_eq_true_eq, ge_iff_le]
    tauto
  · simp only [box.contains_inclusive, Bool.and_eq_true, decide_eq_true_eq, ge_iff_le]
    tauto
  · decide
  · decide
  · decide

/-! ## Hashing -/

theorem to_size_t_cast (v : Int) : ((to_size_t v : Nat) : Int) = v % 18446744073709551616 := by
  unfold to_size_t
  exact Int.toNat_of_nonneg (Int.emod_nonneg _ (by decide))

theorem point_hash_cast (k : point) :
    ((k.hash : Nat) : Int) = (k.y * 2862933555777941757 + k.x) % 18446744073709551616 := by
  have hx := to_size_t_cast k.x
  have hy := to_size_t_cast k.y
  simp only [point.hash, SIZE_MOD]
  push_cast
  rw [hx, hy]
  omega

theorem tripoint_hash_cast (k : tripoint) :
    ((k.hash : Nat) : Int) =
      ((k.z * 2862933555777941757 + k.y) * 2862933555777941757 + k.x)
        % 18446744073709551616 := by
  have hx := to_size_t_cast k.x
  have hy := to_size_t_cast k.y
  have hz := to_size_t_cast k.z
  simp only [tripoint.hash, SIZE_MOD]
  push_cast
  rw [hx, hy, hz]
  omega

theorem point_eq_iff (a b : point) : a.eq b = true ↔ a = b := by
  cases a; cases b
  simp [point.eq]

theorem tripoint_eq_iff (a b : tripoint) : a.eq b = true ↔ a = b := by
  cases a; cases b
  simp [tripoint.eq, and_assoc]

/-- C3: the hash of `point(x, y)` is `(y * A + x) mod 2^64` and the hash of
`tripoint(x, y, z)` is `((z * A + y) * A + x) mod 2^64` with `A = 2862933555777941757`,
the coordinates entering as their 64-bit unsigned conversions (negative ones modulo
`2^64`); `hash(point(0,0)) == 0`, `hash(tripoint(1,0,0)) == 1`, and points (tripoints)
equal under `operator==` have equal hashes. -/
theorem hash_formula (p q : point) (t u : tripoint) :
    ((p.hash : Nat) : Int) = (p.y * 2862933555777941757 + p.x) % 2 ^ 64 ∧
    p.hash = (to_size_t p.y * 2862933555777941757 + to_size_t p.x) % 2 ^ 64 ∧
    ((t.hash : Nat) : Int) =
      ((t.z * 2862933555777941757 + t.y) * 2862933555777941757 + t.x) % 2 ^ 64 ∧
    t.hash = ((to_size_t t.z * 2862933555777941757 + to_size_t t.y) * 2862933555777941757
      + to_size_t t.x) % 2 ^ 64 ∧
    (to_size_t (-1) = 2 ^ 64 - 1) ∧
    (point.mk 0 0).hash = 0 ∧
    (tripoint.mk 1 0 0).hash = 1 ∧
    (p.eq q = true → p.hash = q.hash) ∧
    (t.eq u = true → t.hash = u.hash) := by
  refine ⟨?_, ?_, ?_, ?_, ?_, ?_, ?_, ?_, ?_⟩
  · rw [point_hash_cast]; norm_num
  · simp only [point.hash, SIZE_MOD]; norm_num
  · rw [tripoint_hash_cast]; norm_num
  · simp only [tripoint.hash, SIZE_MOD]; norm_num
  · simp [to_size_t]
  · simp [point.hash, to_size_t, SIZE_MOD]
  · simp [tripoint.hash, to_size_t, SIZE_MOD]
  · intro h; rw [(point_eq_iff p q).mp h]
  · intro h; rw [(tripoint_eq_iff t u).mp h]

/-! ## Equality and ordering -/

theorem point_lt_iff (a b : point) :
    a.lt b = true ↔ a.x < b.x ∨ (a.x = b.x ∧ a.y < b.y) := by
  simp [point.lt]

theorem tripoint_lt_iff (a b : tripoint) :
    a.lt b = true ↔
      a.x < b.x ∨ (a.x = b.x ∧ (a.y < b.y ∨ (a.y = b.y ∧ a.z < b.z))) := by
  unfold tripoint.lt
  split_ifs with h1 h2 h3
  · simp only [decide_eq_true_eq]; omega
  · simp only [decide_eq_true_eq]; omega
  · simp only [decide_eq_true_eq]; omega
  · simp only [Bool.false_eq_true, false_iff]; omega

theorem point_ne_iff (a b : point) : a.ne b = true ↔ a ≠ b := by
  simp [point.ne, ← point_eq_iff]

theorem tripoint_ne_iff (a b : tripoint) : a.ne b = true ↔ a ≠ b := by
  simp [tripoint.ne, ← tripoint_eq_iff]

/-- C4: `operator<` on `point` is the lexicographic order on `(x, y)` and on `tripoint`
the lexicographic order on `(x, y, z)`; each is a strict total order: `a < a` never
holds, for `a`, `b` with `!(a == b)` exactly one of `a < b`, `b < a` holds, and `a < b`
with `b < c` gives `a < c`. -/
theorem lt_strict_total_order (a b c : point) (u v w : tripoint) :
    (a.lt b = true ↔ toLex (a.x, a.y) < toLex (b.x, b.y)) ∧
    (u.lt v = true ↔ toLex (u.x, toLex (u.y, u.z)) < toLex (v.x, toLex (v.y, v.z))) ∧
    a.lt a = false ∧
    u.lt u = false ∧
    (a.ne b = true → (a.lt b = true ∧ b.lt a = false) ∨ (a.lt b = false ∧ b.lt a = true)) ∧
    (u.ne v = true → (u.lt v = true ∧ v.lt u = false) ∨ (u.lt v = false ∧ v.lt u = true)) ∧
    (a.lt b = true → b.lt c = true → a.lt c = true) ∧
    (u.lt v = true → v.lt w = true → u.lt w = true) := by
  refine ⟨?_, ?_, ?_, ?_, ?_, ?_, ?_, ?_⟩
  · rw [point_lt_iff, Prod.Lex.lt_iff]
  · rw [tripoint_lt_iff, Prod.Lex.lt_iff, Prod.Lex.lt_iff]
  · rw [← Bool.not_eq_true, point_lt_iff]; omega
  · rw [← Bool.not_eq_true, tripoint_lt_iff]; omega
  · intro h
    have hne := (point_ne_iff a b).mp h
    have hxy : a.x ≠ b.x ∨ a.y ≠ b.y := by
      by_contra hc
      push_neg at hc
      exact hne (by cases a; cases b; simp_all)
    simp only [← Bool.not_eq_true, point_lt_iff]
    omega
  · intro h
    have hne := (tripoint_ne_iff u v).mp h
    have hxyz : u.x ≠ v.x ∨ u.y ≠ v.y ∨ u.z ≠ v.z := by
      by_contra hc
      push_neg at hc
      exact hne (by cases u; cases v; simp_all)
    simp only [← Bool.not_eq_true, tripoint_lt_iff]
    omega
  · simp only [point_lt_iff]; omega
  · simp only [tripoint_lt_iff]; omega

/-! ## Arithmetic -/

theorem norm_add_sub_cancel (m : IntSem) (a b : Int) (ha : m.fits a) :
    m.norm (m.norm (a + b) - b) = a := by
  rw [norm_sub_norm_left]
  have : a + b - b = a := by omega
  rw [this]
  exact ha

theorem norm_add_assoc (m : IntSem) (a b c : Int) :
    m.norm (m.norm (a + b) + c) = m.norm (a + m.norm (b + c)) := by
  rw [norm_add_norm_left, norm_add_norm_right, Int.add_assoc]

/-- C5: for all points `a`, `b`, `c` (with `int` coordinates), `(a + b) - b == a` and
`(a + b) + c == a + (b + c)` for the component-wise operators, under the unbounded
reading of `int` arithmetic and under the 32-bit wrapping one alike. -/
theorem add_sub_cancel_and_assoc (m : IntSem) (a b c : point) (ha : a.valid m) :
    point.eq (point.sub m (point.add m a b) b) a = true ∧
    point.eq (point.add m (point.add m a b) c) (point.add m a (point.add m b c)) = true := by
  constructor
  · rw [point_eq_iff]
    cases a
    simp only [point.sub, point.add, int_sub, int_add]
    rw [norm_add_sub_cancel m _ _ ha.1, norm_add_sub_cancel m _ _ ha.2]
  · rw [point_eq_iff]
    simp only [point.add, int_add]
    rw [norm_add_assoc, norm_add_assoc]

/-- Witness of C5 at `a = (2147483647, -5)`, `b = (1, 7)`, `c = (3, 4)` under wrapping
arithmetic, where `a + b` overflows. -/
theorem add_sub_cancel_and_assoc_witness :
    point.valid IntSem.wrapping ⟨2147483647, -5⟩ ∧
    point.add IntSem.wrapping ⟨2147483647, -5⟩ ⟨1, 7⟩ = ⟨-2147483648, 2⟩ ∧
    point.eq (point.sub IntSem.wrapping (point.add IntSem.wrapping ⟨2147483647, -5⟩ ⟨1, 7⟩)
      ⟨1, 7⟩) ⟨2147483647, -5⟩ = true ∧
    point.eq (point.add IntSem.wrapping (point.add IntSem.wrapping ⟨2147483647, -5⟩ ⟨1, 7⟩)
        ⟨3, 4⟩)
      (point.add IntSem.wrapping ⟨2147483647, -5⟩ (point.add IntSem.wrapping ⟨1, 7⟩ ⟨3, 4⟩))
      = true :=
  ⟨by decide, by decide,
    add_sub_cancel_and_assoc IntSem.wrapping ⟨2147483647, -5⟩ ⟨1, 7⟩ ⟨3, 4⟩ (by decide)⟩

theorem tmod_sign_bound (a b : Int) (hb : b ≠ 0) :
    (a.tmod b).natAbs < b.natAbs ∧ (0 ≤ a → 0 ≤ a.tmod b) ∧ (a ≤ 0 → a.tmod b ≤ 0) := by
  rcases a with m | m <;> rcases b with n | n
  · have hn : 0 < n := by
      rcases Nat.eq_zero_or_pos n with h | h
      · exact absurd (by rw [h]; rfl) hb
      · exact h
    have e : (Int.ofNat m).tmod (Int.ofNat n) = ((m % n : Nat) : Int) := rfl
    have h1 := Nat.mod_lt m hn
    have h2 := Nat.mod_le m n
    rw [e]
    generalize m % n = k at h1 h2
    simp only [Int.ofNat_eq_coe, Int.natAbs_ofNat]
    omega
  · have e : (Int.ofNat m).tmod (Int.negSucc n) = ((m % (n + 1) : Nat) : Int) := rfl
    have h1 := Nat.mod_lt m (Nat.succ_pos n)
    have h2 := Nat.mod_le m (n + 1)
    rw [e]
    generalize m % (n + 1) = k at h1 h2
    simp only [Int.ofNat_eq_coe, Int.natAbs_ofNat, Int.natAbs_negSucc]
    omega
  · have hn : 0 < n := by
      rcases Nat.eq_zero_or_pos n with h | h
      · exact absurd (by rw [h]; rfl) hb
      · exact h
    have e : (Int.negSucc m).tmod (Int.ofNat n) = -(((m + 1) % n : Nat) : Int) := rfl
    have h1 := Nat.mod_lt (m + 1) hn
    have hm := Int.negSucc_lt_zero m
    rw [e]
    clear e hb
    generalize (m + 1) % n = k at h1
    simp only [Int.ofNat_eq_coe, Int.natAbs_ofNat, Int.natAbs_neg]
    omega
  · have e : (Int.negSucc m).tmod (Int.negSucc n) = -(((m + 1) % (n + 1) : Nat) : Int) := rfl
    have h1 := Nat.mod_lt (m + 1) (Nat.succ_pos n)
    have hm := Int.negSucc_lt_zero m
    rw [e]
    clear e hb
    generalize (m + 1) % (n + 1) = k at h1
    simp only [Int.natAbs_ofNat, Int.natAbs_neg, Int.natAbs_negSucc]
    omega

theorem natAbs_tdiv_le (a b : Int) : (a.tdiv b).natAbs ≤ a.natAbs := by
  rw [Int.natAbs_tdiv]
  exact Nat.div_le_self _ _

theorem tdiv_is_truncated_quotient (c s : Int) (hs : s ≠ 0) :
    is_truncated_quotient c s (c.tdiv s) := by
  obtain ⟨h1, h2, h3⟩ := tmod_sign_bound c s hs
  have e : c - c.tdiv s * s = c.tmod s := by
    have := Int.tdiv_add_tmod' c s
    omega
  unfold is_truncated_quotient
  rw [e]
  refine ⟨?_, h1⟩
  rcases Int.lt_trichotomy c 0 with hc | hc | hc
  · have := h3 (Int.le_of_lt hc); omega
  · subst hc; simp
  · have := h2 (Int.le_of_lt hc); omega

theorem tdiv_fits (m : IntSem) (c s : Int) (hc : m.fits c) (hs : s ≠ 0)
    (hn : ¬ (c = INT_MIN ∧ s = -1)) : m.fits (c.tdiv s) := by
  cases m
  · rfl
  · rw [fits_wrapping_iff] at hc ⊢
    obtain ⟨h1, h2, h3⟩ := tmod_sign_bound c s hs
    have hle := natAbs_tdiv_le c s
    have e := Int.tdiv_add_tmod' c s
    simp only [INT_MIN, INT_MAX] at hc hn ⊢
    generalize c.tmod s = r at h1 h2 h3 e
    generalize hq : c.tdiv s = q at hle e
    have hq1 : -2147483648 ≤ q := by omega
    have hq2 : q ≤ 2147483648 := by omega
    refine ⟨hq1, ?_⟩
    by_contra hgt
    have hq3 : q = 2147483648 := by omega
    subst hq3
    have hc3 : c = -2147483648 := by omega
    subst hc3
    have := h3 (by omega)
    apply hn
    refine ⟨rfl, ?_⟩
    omega

theorem int_div_eq_some (m : IntSem) (c s : Int) (hc : m.fits c) (hs : s ≠ 0)
    (hn : ¬ (c = INT_MIN ∧ s = -1)) : int_div m c s = some (c.tdiv s) := by
  unfold int_div
  rw [if_neg hs, if_pos (tdiv_fits m c s hc hs hn)]

theorem int_div_undefined (m : IntSem) (c : Int) :
    int_div m c 0 = none ∧ int_div IntSem.wrapping INT_MIN (-1) = none ∧
    int_div IntSem.unbounded INT_MIN (-1) = some 2147483648 := by
  refine ⟨?_, ?_, ?_⟩
  · simp [int_div]
  · decide
  · decide

/-- C6: for every point `p` and every `s != 0`, the overflowing quotient `INT_MIN / -1`
excluded, `p / s` has a value and each of its coordinates is the quotient of that
coordinate by `s` truncated toward zero: the remainder `c - (c / s) * s` is zero or has
the sign of `c` and is smaller than `s` in magnitude (so it is neither the floored nor
the Euclidean quotient, which give `-2` for `-3 / 2`); `point(-3, 7) / 2 == point(-1, 3)`. -/
theorem div_truncates_toward_zero (m : IntSem) (p : point) (s : Int) (hp : p.valid m)
    (hs : s ≠ 0) (hx : ¬ (p.x = INT_MIN ∧ s = -1)) (hy : ¬ (p.y = INT_MIN ∧ s = -1)) :
    (∃ q, p.div m s = some q ∧
      is_truncated_quotient p.x s q.x ∧ is_truncated_quotient p.y s q.y) ∧
    point.div m ⟨-3, 7⟩ 2 = some ⟨-1, 3⟩ ∧
    Int.fdiv (-3) 2 = -2 ∧ Int.ediv (-3) 2 = -2 := by
  refine ⟨⟨⟨p.x.tdiv s, p.y.tdiv s⟩, ?_, ?_, ?_⟩, ?_, ?_, ?_⟩
  · unfold point.div
    rw [int_div_eq_some m p.x s hp.1 hs hx, int_div_eq_some m p.y s hp.2 hs hy]
  · exact tdiv_is_truncated_quotient p.x s hs
  · exact tdiv_is_truncated_quotient p.y s hs
  · cases m <;> decide
  · decide
  · decide

/-- Witness of C6 at `p = (-2147483648, 2147483647)`, `s = -3` under wrapping arithmetic. -/
theorem div_truncates_toward_zero_witness :
    point.valid IntSem.wrapping ⟨-2147483648, 2147483647⟩ ∧
    ((∃ q, point.div IntSem.wrapping ⟨-2147483648, 2147483647⟩ (-3) = some q ∧
      is_truncated_quotient (-2147483648) (-3) q.x ∧
      is_truncated_quotient 2147483647 (-3) q.y) ∧
    point.div IntSem.wrapping ⟨-3, 7⟩ 2 = some ⟨-1, 3⟩ ∧
    Int.fdiv (-3) 2 = -2 ∧ Int.ediv (-3) 2 = -2) :=
  ⟨by decide,
    div_truncates_toward_zero IntSem.wrapping ⟨-2147483648, 2147483647⟩ (-3) (by decide)
      (by decide) (by decide) (by decide)⟩

/-- C7: for every point `p` and every `s != 0` such that the products `p.x * s` and
`p.y * s` do not overflow `int`, `(p * s) / s == p`. -/
theorem mul_div_cancel (m : IntSem) (p : point) (s : Int) (hp : p.valid m) (hs : s ≠ 0)
    (hx : m.fits (p.x * s)) (hy : m.fits (p.y * s)) :
    point.div m (point.mul m p s) s = some p ∧
    ∃ q, point.div m (point.mul m p s) s = some q ∧ point.eq q p = true := by
  have cancel : ∀ c : Int, m.fits c → m.fits (c * s) →
      int_div m (int_mul m c s) s = some c := by
    intro c hc hcs
    unfold int_div int_mul
    rw [norm_of_fits m _ hcs, if_neg hs, Int.mul_tdiv_cancel c hs, if_pos hc]
  have key : point.div m (point.mul m p s) s = some p := by
    unfold point.div point.mul
    simp only [cancel p.x hp.1 hx, cancel p.y hp.2 hy]
  exact ⟨key, p, key, (point_eq_iff p p).mpr rfl⟩

/-- Witness of C7 at `p = (-1073741824, 715827882)`, `s = 2` under wrapping arithmetic
(`p.x * s` is `INT_MIN`). -/
theorem mul_div_cancel_witness :
    point.valid IntSem.wrapping ⟨-1073741824, 715827882⟩ ∧
    IntSem.wrapping.fits (-1073741824 * 2) ∧ IntSem.wrapping.fits (715827882 * 2) ∧
    point.div IntSem.wrapping (point.mul IntSem.wrapping ⟨-1073741824, 715827882⟩ 2) 2
      = some ⟨-1073741824, 715827882⟩ :=
  ⟨by decide, by decide, by decide,
    (mul_div_cancel IntSem.wrapping ⟨-1073741824, 715827882⟩ 2 (by decide) (by decide)
      (by decide) (by decide)).1⟩

theorem assign_self_eq (m : IntSem) (p : tripoint) :
    tripoint.add_assign_self m p = tripoint.add_assign m p p ∧
    tripoint.sub_assign_self m p = tripoint.sub_assign m p p :=
  ⟨rfl, rfl⟩

theorem shrink_moves_corners_unaliased (m : IntSem) (b : box) (amount : box.amount_ref) :
    (b.shrink m amount).p_min = tripoint.add m b.p_min (amount.read b) ∧
    (amount ≠ box.amount_ref.own_p_min →
      (b.shrink m amount).p_max = tripoint.sub m b.p_max (amount.read b)) ∧
    (box.mk ⟨0, 0, 0⟩ ⟨4, 4, 4⟩).shrink m (box.amount_ref.other ⟨1, 1, 0⟩)
      = box.mk ⟨1, 1, 0⟩ ⟨3, 3, 4⟩ := by
  refine ⟨?_, ?_, ?_⟩
  · cases amount <;> rfl
  · intro h
    cases amount with
    | other v => rfl
    | own_p_min => exact absurd rfl h
    | own_p_max => rfl
  · cases m <;> decide

theorem shrink_own_p_min (m : IntSem) (b : box) :
    (b.shrink m box.amount_ref.own_p_min).p_min = tripoint.add m b.p_min b.p_min ∧
    (b.shrink m box.amount_ref.own_p_min).p_max
      = tripoint.sub m b.p_max (tripoint.add m b.p_min b.p_min) :=
  ⟨rfl, rfl⟩

/-- C8 (the code at the failing input): `box b( {1,1,1}, {10,10,10} ); b.shrink( b.p_min )`.
The parameter `amount` is bound to `b.p_min`, whose value at the call is `(1,1,1)`;
`p_max -= amount` reads it after `p_min += amount` has doubled it, so the code leaves
`box({2,2,2},{8,8,8})`, whereas the old `p_max - amount` is `(9,9,9)`: the equation
`p_max == old p_max - amount` does not hold for every box and amount. -/
theorem shrink_aliased_p_min_diverges :
    box.amount_ref.read (box.mk ⟨1, 1, 1⟩ ⟨10, 10, 10⟩) box.amount_ref.own_p_min
      = ⟨1, 1, 1⟩ ∧
    (box.mk ⟨1, 1, 1⟩ ⟨10, 10, 10⟩).shrink IntSem.unbounded box.amount_ref.own_p_min
      = box.mk ⟨2, 2, 2⟩ ⟨8, 8, 8⟩ ∧
    (box.mk ⟨1, 1, 1⟩ ⟨10, 10, 10⟩).shrink IntSem.wrapping box.amount_ref.own_p_min
      = box.mk ⟨2, 2, 2⟩ ⟨8, 8, 8⟩ ∧
    tripoint.add IntSem.unbounded ⟨1, 1, 1⟩ ⟨1, 1, 1⟩ = ⟨2, 2, 2⟩ ∧
    tripoint.sub IntSem.unbounded ⟨10, 10, 10⟩ ⟨1, 1, 1⟩ = ⟨9, 9, 9⟩ ∧
    (box.mk ⟨1, 1, 1⟩ ⟨10, 10, 10⟩).shrink IntSem.unbounded
      (box.amount_ref.other ⟨1, 1, 1⟩) = box.mk ⟨2, 2, 2⟩ ⟨9, 9, 9⟩ ∧
    ¬ (∀ (m : IntSem) (b : box) (amount : box.amount_ref),
        (b.shrink m amount).p_max = tripoint.sub m b.p_max (amount.read b)) := by
  refine ⟨by decide, by decide, by decide, by decide, by decide, by decide, ?_⟩
  intro h
  have h1 := h IntSem.unbounded ⟨⟨1, 1, 1⟩, ⟨10, 10, 10⟩⟩ box.amount_ref.own_p_min
  revert h1
  decide

/-- C9: `point::rotate` fails an assertion (the error result) if and only if
`turns < 0` or `turns > 4`; for such `turns` it returns no value, so it neither wraps
(`rotate(5, dim)` is not `rotate(1, dim)`) nor returns the point unchanged, and for every
`turns` in `0..4` it returns a point. -/
theorem rotate_rejects_out_of_range (m : IntSem) (p dim : point) (turns : Int) :
    ((∃ e, p.rotate m turns dim = Except.error e) ↔ (turns < 0 ∨ turns > 4)) ∧
    (turns < 0 ∨ turns > 4 → ∀ q, p.rotate m turns dim ≠ Except.ok q) ∧
    (0 ≤ turns ∧ turns ≤ 4 → ∃ q, p.rotate m turns dim = Except.ok q) ∧
    p.rotate m 5 dim ≠ p.rotate m 1 dim ∧
    p.rotate m 5 dim ≠ Except.ok p ∧
    p.rotate m (-1) dim ≠ Except.ok p := by
  refine ⟨?_, ?_, ?_, ?_, ?_, ?_⟩
  · unfold point.rotate
    split_ifs with h1 h2 h3 h4 h5 <;> simp <;> omega
  · intro h q
    unfold point.rotate
    split_ifs with h1 h2 h3 h4 h5 <;> simp <;> omega
  · intro h
    unfold point.rotate
    split_ifs with h1 h2 h3 h4 h5 <;> simp <;> omega
  · simp [point.rotate]
  · simp [point.rotate]
  · simp [point.rotate]

theorem centre_coordinate (m : IntSem) (d : Int) (hd : m.fits d) (hpos : 0 < d) :
    int_div m (int_sub m d 1) 2 = some ((d - 1) / 2) ∧ m.fits ((d - 1) / 2) := by
  have hfit : m.fits (d - 1) := by
    cases m
    · rfl
    · rw [fits_wrapping_iff] at hd ⊢
      simp only [INT_MIN, INT_MAX] at hd ⊢
      omega
  have hq : (d - 1).tdiv 2 = (d - 1) / 2 := Int.tdiv_eq_ediv (by omega) (by decide)
  have hdiv := int_div_eq_some m (d - 1) 2 hfit (by decide) (by omega)
  rw [hq] at hdiv
  refine ⟨?_, ?_⟩
  · unfold int_sub
    rw [norm_of_fits m _ hfit]
    exact hdiv
  · cases m
    · rfl
    · rw [fits_wrapping_iff] at hd ⊢
      simp only [INT_MIN, INT_MAX] at hd ⊢
      omega

theorem norm_centre (m : IntSem) (d : Int) (hodd : d % 2 = 1)
    (hc : m.fits ((d - 1) / 2)) : m.norm (d - (d - 1) / 2 - 1) = (d - 1) / 2 := by
  have e : d - (d - 1) / 2 - 1 = (d - 1) / 2 := by omega
  rw [e]
  exact hc

/-- Counterexample to C10 as stated: `dim = (3, 5)` has odd positive sides and centre
`c = (1, 2)`, yet `c.rotate(1, dim)` is `(2, 1)` and `c.rotate(3, dim)` is `(2, 1)`,
not `c`. -/
theorem rotate_centre_counterexample :
    ¬ (∀ (m : IntSem) (dim c : point) (turns : Int),
        dim.x % 2 = 1 → dim.y % 2 = 1 → 0 < dim.x → 0 < dim.y → 0 ≤ turns → turns ≤ 4 →
        point.div m (point.sub m dim ⟨1, 1⟩) 2 = some c →
        c.rotate m turns dim = Except.ok c) ∧
    point.div IntSem.unbounded (point.sub IntSem.unbounded ⟨3, 5⟩ ⟨1, 1⟩) 2 = some ⟨1, 2⟩ ∧
    (point.mk 1 2).rotate IntSem.unbounded 1 ⟨3, 5⟩ = Except.ok ⟨2, 1⟩ ∧
    (point.mk 1 2).rotate IntSem.unbounded 3 ⟨3, 5⟩ = Except.ok ⟨2, 1⟩ ∧
    point.div IntSem.wrapping (point.sub IntSem.wrapping ⟨3, 5⟩ ⟨1, 1⟩) 2 = some ⟨1, 2⟩ ∧
    (point.mk 1 2).rotate IntSem.wrapping 1 ⟨3, 5⟩ = Except.ok ⟨2, 1⟩ := by
  refine ⟨?_, by decide, by decide, by decide, by decide, by decide⟩
  intro h
  have h1 := h IntSem.unbounded ⟨3, 5⟩ ⟨1, 2⟩ 1 (by decide) (by decide) (by decide)
    (by decide) (by decide) (by decide) (by decide)
  revert h1
  decide

/-- C10 (amended): for every `dim` with odd positive `dim.x` and `dim.y` and every `turns`
in `0..4`, the centre `c = ((dim.x - 1) / 2, (dim.y - 1) / 2)` of the `dim` rectangle is
a fixed point of `rotate(turns, dim)` when `turns` is 0, 2 or 4, and also for `turns` 1
and 3 when `dim` is square (`dim.x == dim.y`); for `turns` 1 and 3 in general
`c.rotate(turns, dim)` is `(c.y, c.x)`.  With the default `dim` `(1, 1)` the centre is
the origin and `point(0,0).rotate(turns) == point(0,0)`. -/
theorem rotate_centre_fixed (m : IntSem) (dim : point) (turns : Int) (hv : dim.valid m)
    (hx : dim.x % 2 = 1) (hy : dim.y % 2 = 1) (hxp : 0 < dim.x) (hyp : 0 < dim.y)
    (ht0 : 0 ≤ turns) (ht4 : turns ≤ 4) :
    (∃ c, point.div m (point.sub m dim ⟨1, 1⟩) 2 = some c ∧
      c.x = (dim.x - 1) / 2 ∧ c.y = (dim.y - 1) / 2 ∧
      (turns = 0 ∨ turns = 2 ∨ turns = 4 ∨ dim.x = dim.y →
        c.rotate m turns dim = Except.ok c) ∧
      (turns = 1 ∨ turns = 3 → c.rotate m turns dim = Except.ok ⟨c.y, c.x⟩)) ∧
    point.div m (point.sub m rotate_default_dim ⟨1, 1⟩) 2 = some ⟨0, 0⟩ ∧
    (point.mk 0 0).rotate m turns rotate_default_dim = Except.ok ⟨0, 0⟩ := by
  obtain ⟨hdx, hfx⟩ := centre_coordinate m dim.x hv.1 hxp
  obtain ⟨hdy, hfy⟩ := centre_coordinate m dim.y hv.2 hyp
  have nx := norm_centre m dim.x hx hfx
  have ny := norm_centre m dim.y hy hfy
  have hcases : turns = 0 ∨ turns = 1 ∨ turns = 2 ∨ turns = 3 ∨ turns = 4 := by omega
  refine ⟨⟨⟨(dim.x - 1) / 2, (dim.y - 1) / 2⟩, ?_, rfl, rfl, ?_, ?_⟩, ?_, ?_⟩
  · unfold point.div point.sub
    simp only [hdx, hdy]
  · intro h
    rcases hcases with rfl | rfl | rfl | rfl | rfl
    · simp [point.rotate]
    · have hsq : dim.x = dim.y := by omega
      simp [point.rotate, int_sub, norm_sub_norm_left, nx, ny, hsq]
    · simp [point.rotate, int_sub, norm_sub_norm_left, nx, ny]
    · have hsq : dim.x = dim.y := by omega
      simp [point.rotate, int_sub, norm_sub_norm_left, nx, ny, hsq]
    · simp [point.rotate]
  · intro h
    rcases h with rfl | rfl
    · simp [point.rotate, int_sub, norm_sub_norm_left, ny]
    · simp [point.rotate, int_sub, norm_sub_norm_left, nx]
  · cases m <;> decide
  · rcases hcases with rfl | rfl | rfl | rfl | rfl <;> cases m <;> decide

/-- Witness of C10 (amended) at `dim = (3, 5)`, `turns = 2`. -/
theorem rotate_centre_fixed_witness :
    point.valid IntSem.wrapping ⟨3, 5⟩ ∧
    (point.mk 1 2).rotate IntSem.wrapping 2 ⟨3, 5⟩ = Except.ok ⟨1, 2⟩ ∧
    ((∃ c, point.div IntSem.wrapping (point.sub IntSem.wrapping ⟨3, 5⟩ ⟨1, 1⟩) 2 = some c ∧
      c.x = (3 - 1) / 2 ∧ c.y = (5 - 1) / 2 ∧
      ((2 : Int) = 0 ∨ (2 : Int) = 2 ∨ (2 : Int) = 4 ∨ (3 : Int) = 5 →
        c.rotate IntSem.wrapping 2 ⟨3, 5⟩ = Except.ok c) ∧
      ((2 : Int) = 1 ∨ (2 : Int) = 3 →
        c.rotate IntSem.wrapping 2 ⟨3, 5⟩ = Except.ok ⟨c.y, c.x⟩)) ∧
    point.div IntSem.wrapping (point.sub IntSem.wrapping rotate_default_dim ⟨1, 1⟩) 2
      = some ⟨0, 0⟩ ∧
    (point.mk 0 0).rotate IntSem.wrapping 2 rotate_default_dim = Except.ok ⟨0, 0⟩) :=
  ⟨by decide, by decide,
    rotate_centre_fixed IntSem.wrapping ⟨3, 5⟩ 2 (by decide) (by decide) (by decide)
      (by decide) (by decide) (by decide) (by decide)⟩

/-! ## Counting the points of a region -/

theorem rectangle_half_open_points_mem (r : rectangle) (p : point) :
    p ∈ r.half_open_points ↔ r.contains_half_open p = true := by
  cases p with
  | mk x y =>
    simp only [rectangle.half_open_points, rectangle.contains_half_open, Finset.mem_image,
      Finset.mem_product, Finset.mem_Ico, Prod.exists, point.mk.injEq, Bool.and_eq_true,
      decide_eq_true_eq, ge_iff_le]
    constructor
    · rintro ⟨a, c, ⟨⟨h1, h2⟩, h3, h4⟩, rfl, rfl⟩
      exact ⟨⟨⟨h1, h2⟩, h3⟩, h4⟩
    · rintro ⟨⟨⟨h1, h2⟩, h3⟩, h4⟩
      exact ⟨x, y, ⟨⟨h1, h2⟩, h3, h4⟩, rfl, rfl⟩

theorem box_half_open_points_mem (b : box) (t : tripoint) :
    t ∈ b.half_open_points ↔ b.contains_half_open t = true := by
  cases t with
  | mk x y z =>
    simp only [box.half_open_points, box.contains_half_open, Finset.mem_image,
      Finset.mem_product, Finset.mem_Ico, Prod.exists, tripoint.mk.injEq, Bool.and_eq_true,
      decide_eq_true_eq, ge_iff_le]
    constructor
    · rintro ⟨a, c, d, ⟨⟨h1, h2⟩, ⟨h3, h4⟩, h5, h6⟩, rfl, rfl, rfl⟩
      exact ⟨⟨⟨⟨⟨h1, h2⟩, h3⟩, h4⟩, h5⟩, h6⟩
    · rintro ⟨⟨⟨⟨⟨h1, h2⟩, h3⟩, h4⟩, h5⟩, h6⟩
      exact ⟨x, y, z, ⟨⟨h1, h2⟩, ⟨h3, h4⟩, h5, h6⟩, rfl, rfl, rfl⟩

theorem rectangle_half_open_points_card (r : rectangle) :
    r.half_open_points.card =
      (r.p_max.x - r.p_min.x).toNat * (r.p_max.y - r.p_min.y).toNat := by
  unfold rectangle.half_open_points
  rw [Finset.card_image_of_injective, Finset.card_product, Int.card_Ico, Int.card_Ico]
  intro c d h
  simp only [point.mk.injEq] at h
  exact Prod.ext h.1 h.2

theorem box_half_open_points_card (b : box) :
    b.half_open_points.card =
      (b.p_max.x - b.p_min.x).toNat *
        ((b.p_max.y - b.p_min.y).toNat * (b.p_max.z - b.p_min.z).toNat) := by
  unfold box.half_open_points
  rw [Finset.card_image_of_injective, Finset.card_product, Finset.card_product,
    Int.card_Ico, Int.card_Ico, Int.card_Ico]
  intro c d h
  simp only [tripoint.mk.injEq] at h
  exact Prod.ext h.1 (Prod.ext h.2.1 h.2.2)

theorem rectangle_half_open_set (r : rectangle) :
    {p : point | r.contains_half_open p = true} = (r.half_open_points : Set point) := by
  ext p
  simp only [Set.mem_setOf_eq, Finset.mem_coe, rectangle_half_open_points_mem]

theorem box_half_open_set (b : box) :
    {t : tripoint | b.contains_half_open t = true} = (b.half_open_points : Set tripoint) := by
  ext t
  simp only [Set.mem_setOf_eq, Finset.mem_coe, box_half_open_points_mem]

/-- C11: for every rectangle with `p_min <= p_max` on both axes, the integer points `p`
with `contains_half_open(p)` form a finite set of exactly
`(p_max.x - p_min.x) * (p_max.y - p_min.y)` elements, the product of `p_max - p_min`
coordinates per axis; a box with `p_min <= p_max` on its three axes contains exactly the
product of its three extents. -/
theorem half_open_point_count (r : rectangle) (b : box)
    (hrx : r.p_min.x ≤ r.p_max.x) (hry : r.p_min.y ≤ r.p_max.y)
    (hbx : b.p_min.x ≤ b.p_max.x) (hby : b.p_min.y ≤ b.p_max.y)
    (hbz : b.p_min.z ≤ b.p_max.z) :
    Set.Finite {p : point | r.contains_half_open p = true} ∧
    ((Set.ncard {p : point | r.contains_half_open p = true} : Nat) : Int) =
      (r.p_max.x - r.p_min.x) * (r.p_max.y - r.p_min.y) ∧
    Set.Finite {t : tripoint | b.contains_half_open t = true} ∧
    ((Set.ncard {t : tripoint | b.contains_half_open t = true} : Nat) : Int) =
      (b.p_max.x - b.p_min.x) * (b.p_max.y - b.p_min.y) * (b.p_max.z - b.p_min.z) := by
  rw [rectangle_half_open_set, box_half_open_set, Set.ncard_coe_Finset,
    Set.ncard_coe_Finset, rectangle_half_open_points_card, box_half_open_points_card]
  refine ⟨Finset.finite_toSet _, ?_, Finset.finite_toSet _, ?_⟩
  · push_cast
    rw [Int.toNat_of_nonneg (by omega), Int.toNat_of_nonneg (by omega)]
  · push_cast
    rw [Int.toNat_of_nonneg (by omega), Int.toNat_of_nonneg (by omega),
      Int.toNat_of_nonneg (by omega)]
    ring

/-- Witness of C11 at `rectangle({0,0},{3,3})` (9 points) and `box({0,0,0},{4,4,4})`
(64 points). -/
theorem half_open_point_count_witness :
    Set.Finite {p : point | (rectangle.mk ⟨0, 0⟩ ⟨3, 3⟩).contains_half_open p = true} ∧
    ((Set.ncard {p : point | (rectangle.mk ⟨0, 0⟩ ⟨3, 3⟩).contains_half_open p = true}
      : Nat) : Int) = (3 - 0) * (3 - 0) ∧
    Set.Finite {t : tripoint | (box.mk ⟨0, 0, 0⟩ ⟨4, 4, 4⟩).contains_half_open t = true} ∧
    ((Set.ncard {t : tripoint | (box.mk ⟨0, 0, 0⟩ ⟨4, 4, 4⟩).contains_half_open t = true}
      : Nat) : Int) = (4 - 0) * (4 - 0) * (4 - 0) :=
  half_open_point_count ⟨⟨0, 0⟩, ⟨3, 3⟩⟩ ⟨⟨0, 0, 0⟩, ⟨4, 4, 4⟩⟩ (by decide) (by decide)
    (by decide) (by decide) (by decide)

/-- C12: `contains_half_open(p)` holds iff `contains_inclusive(p)` holds and `p` differs
from `p_max` on every axis (`x`, `y` for a rectangle; `x`, `y`, `z` for a box); hence
`contains_half_open` implies `contains_inclusive`. -/
theorem half_open_iff_inclusive_below_max (r : rectangle) (p : point) (b : box)
    (t : tripoint) :
    (r.contains_half_open p = true ↔
      r.contains_inclusive p = true ∧ p.x ≠ r.p_max.x ∧ p.y ≠ r.p_max.y) ∧
    (r.contains_half_open p = true → r.contains_inclusive p = true) ∧
    (b.contains_half_open t = true ↔
      b.contains_inclusive t = true ∧ t.x ≠ b.p_max.x ∧ t.y ≠ b.p_max.y ∧
        t.z ≠ b.p_max.z) ∧
    (b.contains_half_open t = true → b.contains_inclusive t = true) := by
  simp only [rectangle.contains_half_open, rectangle.contains_inclusive,
    box.contains_half_open, box.contains_inclusive, Bool.and_eq_true, decide_eq_true_eq,
    ge_iff_le]
  refine ⟨?_, ?_, ?_, ?_⟩ <;> omega

/-- C13: a box shrunk past degenerate is empty: when after `b.shrink(amount)` the corner
`p_min` is strictly greater than `p_max` on at least one axis, no tripoint `t` satisfies
`contains_inclusive(t)` and none satisfies `contains_half_open(t)` (under either reading
of `int` arithmetic, so in particular when the shrink does not overflow, and whatever
object `amount` is bound to). -/
theorem shrunk_past_degenerate_is_empty (m : IntSem) (b : box) (amount : box.amount_ref)
    (t : tripoint)
    (h : (b.shrink m amount).p_min.x > (b.shrink m amount).p_max.x ∨
      (b.shrink m amount).p_min.y > (b.shrink m amount).p_max.y ∨
      (b.shrink m amount).p_min.z > (b.shrink m amount).p_max.z) :
    (b.shrink m amount).contains_inclusive t = false ∧
    (b.shrink m amount).contains_half_open t = false := by
  generalize b.shrink m amount = c at h
  simp only [← Bool.not_eq_true, box.contains_inclusive, box.contains_half_open,
    Bool.and_eq_true, decide_eq_true_eq, ge_iff_le]
  constructor <;> omega

/-- Witness of C13 at `box({0,0,0},{4,4,4})`, `amount = (3,0,0)`, `t = (2,1,1)`: the
shrunk box is `box({3,0,0},{1,4,4})`. -/
theorem shrunk_past_degenerate_is_empty_witness :
    (box.mk ⟨0, 0, 0⟩ ⟨4, 4, 4⟩).shrink IntSem.unbounded (box.amount_ref.other ⟨3, 0, 0⟩)
      = box.mk ⟨3, 0, 0⟩ ⟨1, 4, 4⟩ ∧
    ((box.mk ⟨0, 0, 0⟩ ⟨4, 4, 4⟩).shrink IntSem.unbounded
      (box.amount_ref.other ⟨3, 0, 0⟩)).contains_inclusive ⟨2, 1, 1⟩ = false ∧
    ((box.mk ⟨0, 0, 0⟩ ⟨4, 4, 4⟩).shrink IntSem.unbounded
      (box.amount_ref.other ⟨3, 0, 0⟩)).contains_half_open ⟨2, 1, 1⟩ = false :=
  ⟨by decide,
    shrunk_past_degenerate_is_empty IntSem.unbounded ⟨⟨0, 0, 0⟩, ⟨4, 4, 4⟩⟩
      (box.amount_ref.other ⟨3, 0, 0⟩) ⟨2, 1, 1⟩ (by decide)⟩

theorem hash_swap_aux (x y : Int) (hx : INT_MIN ≤ x ∧ x ≤ INT_MAX)
    (hy : INT_MIN ≤ y ∧ y ≤ INT_MAX) (hne : x ≠ y)
    (hdvd : (4611686018427387904 : Int) ∣ (x - y) * 715733388944485439) : False := by
  have hco : IsCoprime (4611686018427387904 : Int) 715733388944485439 := by
    norm_num
  obtain ⟨k, hk⟩ := hco.dvd_of_dvd_mul_right hdvd
  simp only [INT_MIN, INT_MAX] at hx hy
  clear hdvd hco
  omega

/-- C14: the point hash is order-sensitive: for all `int` coordinates `x != y` (32-bit
range), `hash(point(x, y)) != hash(point(y, x))`. -/
theorem hash_order_sensitive (x y : Int) (hx : INT_MIN ≤ x ∧ x ≤ INT_MAX)
    (hy : INT_MIN ≤ y ∧ y ≤ INT_MAX) (hne : x ≠ y) :
    (point.mk x y).hash ≠ (point.mk y x).hash := by
  intro h
  have h1 := point_hash_cast ⟨x, y⟩
  have h2 := point_hash_cast ⟨y, x⟩
  rw [h] at h1
  rw [h1] at h2
  simp only at h2
  have hdvd : (18446744073709551616 : Int) ∣
      (x * 2862933555777941757 + y) - (y * 2862933555777941757 + x) :=
    Int.dvd_of_emod_eq_zero (Int.emod_eq_emod_iff_emod_sub_eq_zero.mp h2.symm)
  have hfac : (x * 2862933555777941757 + y) - (y * 2862933555777941757 + x)
      = 4 * ((x - y) * 715733388944485439) := by ring
  rw [hfac] at hdvd
  have hM : (18446744073709551616 : Int) = 4 * 4611686018427387904 := by norm_num
  rw [hM] at hdvd
  have hdvd2 : (4611686018427387904 : Int) ∣ (x - y) * 715733388944485439 :=
    Int.dvd_of_mul_dvd_mul_left (by decide) hdvd
  exact hash_swap_aux x y hx hy hne hdvd2

/-- Witness of C14 at `x = -2147483648`, `y = 2147483647`. -/
theorem hash_order_sensitive_witness :
    (point.mk (-2147483648) 2147483647).hash ≠ (point.mk 2147483647 (-2147483648)).hash :=
  hash_order_sensitive (-2147483648) 2147483647 (by decide) (by decide) (by decide)

/-- C15: mixed tripoint/point arithmetic leaves `z` unchanged and acts as point
arithmetic on the `xy` part: `(t + p).z == t.z`, `(t + p).xy() == t.xy() + p`,
`(t - p).z == t.z`, `(t - p).xy() == t.xy() - p`, and `t += p`, `t -= p` produce the
values of `t + p`, `t - p`. -/
theorem mixed_arithmetic_preserves_z (m : IntSem) (t : tripoint) (p : point) :
    (t.add_point m p).z = t.z ∧
    (t.add_point m p).xy = point.add m t.xy p ∧
    (t.sub_point m p).z = t.z ∧
    (t.sub_point m p).xy = point.sub m t.xy p ∧
    t.add_assign_point m p = t.add_point m p ∧
    t.sub_assign_point m p = t.sub_point m p ∧
    (t.add_assign_point m p).z = t.z ∧
    (t.sub_assign_point m p).z = t.z :=
  ⟨rfl, rfl, rfl, rfl, rfl, rfl, rfl, rfl⟩

/-! ## The neighbour offsets -/

theorem abs_max_eq_one_iff (x y : Int) :
    max |x| |y| = 1 ↔ (-1 ≤ x ∧ x ≤ 1 ∧ -1 ≤ y ∧ y ≤ 1 ∧ (x ≠ 0 ∨ y ≠ 0)) := by
  rcases abs_cases x with ⟨hx, hx0⟩ | ⟨hx, hx0⟩ <;>
  rcases abs_cases y with ⟨hy, hy0⟩ | ⟨hy, hy0⟩ <;>
  rw [hx, hy, max_def] <;> split_ifs <;> omega

theorem abs_add_eq_one_iff (x y : Int) :
    |x| + |y| = 1 ↔ ((x = 0 ∧ (y = 1 ∨ y = -1)) ∨ (y = 0 ∧ (x = 1 ∨ x = -1))) := by
  rcases abs_cases x with ⟨hx, hx0⟩ | ⟨hx, hx0⟩ <;>
  rcases abs_cases y with ⟨hy, hy0⟩ | ⟨hy, hy0⟩ <;>
  rw [hx, hy] <;> omega

/-- C16: `eight_horizontal_neighbors` has 8 pairwise distinct entries, and a tripoint `t`
occurs in it iff `t.z == 0` and `max(|t.x|, |t.y|) == 1`; the `xy` parts of its entries
are, up to order, exactly `point_north`, `point_north_east`, `point_east`,
`point_south_east`, `point_south`, `point_south_west`, `point_west`, `point_north_west`;
`four_adjacent_offsets` has 4 pairwise distinct entries and a point occurs in it iff
`|x| + |y| == 1`. -/
theorem neighbour_offsets_exact (t : tripoint) (p : point) :
    eight_horizontal_neighbors.length = 8 ∧
    eight_horizontal_neighbors.Nodup ∧
    (t ∈ eight_horizontal_neighbors ↔ t.z = 0 ∧ max |t.x| |t.y| = 1) ∧
    (eight_horizontal_neighbors.map tripoint.xy).Perm
      [point_north, point_north_east, point_east, point_south_east, point_south,
        point_south_west, point_west, point_north_west] ∧
    four_adjacent_offsets.length = 4 ∧
    four_adjacent_offsets.Nodup ∧
    (p ∈ four_adjacent_offsets ↔ |p.x| + |p.y| = 1) := by
  refine ⟨rfl, by decide, ?_, by decide, rfl, by decide, ?_⟩
  · cases t with
    | mk x y z =>
      rw [abs_max_eq_one_iff]
      simp only [eight_horizontal_neighbors, List.mem_cons, tripoint.mk.injEq,
        List.mem_singleton, List.not_mem_nil, or_false]
      omega
  · cases p with
    | mk x y =>
      rw [abs_add_eq_one_iff]
      simp only [four_adjacent_offsets, point_north, point_east, point_south, point_west,
        List.mem_cons, point.mk.injEq, List.mem_singleton, List.not_mem_nil, or_false]
      omega

/-! ## Composition of rotations -/

theorem norm_sub_sub_cancel (m : IntSem) (d v : Int) (hv : m.fits v) :
    m.norm (d - m.norm (d - v - 1) - 1) = v := by
  cases m
  · simp only [IntSem.norm]; omega
  · rw [fits_wrapping_iff] at hv
    simp only [INT_MIN, INT_MAX] at hv
    simp only [IntSem.norm, wrap32]
    omega

/-- C17: for a square `dim` (`dim.x == dim.y`) quarter turns compose additively modulo 4:
for every point `p` (with `int` coordinates) and all `a`, `b` in `0..4`,
`p.rotate(a, dim).rotate(b, dim) == p.rotate((a + b) mod 4, dim)`; four successive
`rotate(1, dim)` return `p`, and `rotate(3, dim)` undoes `rotate(1, dim)`. -/
theorem rotate_compose (m : IntSem) (p dim : point) (a b : Int) (hp : p.valid m)
    (hsq : dim.x = dim.y) (ha0 : 0 ≤ a) (ha4 : a ≤ 4) (hb0 : 0 ≤ b) (hb4 : b ≤ 4) :
    (p.rotate m a dim >>= fun q => q.rotate m b dim) = p.rotate m ((a + b) % 4) dim ∧
    (p.rotate m 1 dim >>= fun q => q.rotate m 1 dim >>= fun q => q.rotate m 1 dim
      >>= fun q => q.rotate m 1 dim) = Except.ok p ∧
    (p.rotate m 1 dim >>= fun q => q.rotate m 3 dim) = Except.ok p := by
  obtain ⟨x, y⟩ := p
  obtain ⟨dx, dy⟩ := dim
  simp only at hsq
  subst hsq
  have hx : m.fits x := hp.1
  have hy : m.fits y := hp.2
  have cx := norm_sub_sub_cancel m dx x hx
  have cy := norm_sub_sub_cancel m dx y hy
  have hca : a = 0 ∨ a = 1 ∨ a = 2 ∨ a = 3 ∨ a = 4 := by omega
  have hcb : b = 0 ∨ b = 1 ∨ b = 2 ∨ b = 3 ∨ b = 4 := by omega
  refine ⟨?_, ?_, ?_⟩
  · rcases hca with rfl | rfl | rfl | rfl | rfl <;>
    rcases hcb with rfl | rfl | rfl | rfl | rfl <;>
    simp [point.rotate, int_sub, norm_sub_norm_left, bind, Except.bind, cx, cy]
  · simp [point.rotate, int_sub, norm_sub_norm_left, bind, Except.bind, cx, cy]
  · simp [point.rotate, int_sub, norm_sub_norm_left, bind, Except.bind, cx, cy]

/-- Witness of C17 at `p = (1, 2)`, `dim = (5, 5)`, `a = 3`, `b = 2` under wrapping
arithmetic: both sides are `rotate(1, dim) = (2, 1)`. -/
theorem rotate_compose_witness :
    point.rotate IntSem.wrapping ⟨1, 2⟩ ((3 + 2) % 4) ⟨5, 5⟩ = Except.ok ⟨2, 1⟩ ∧
    ((point.rotate IntSem.wrapping ⟨1, 2⟩ 3 ⟨5, 5⟩ >>=
        fun q => q.rotate IntSem.wrapping 2 ⟨5, 5⟩)
      = point.rotate IntSem.wrapping ⟨1, 2⟩ ((3 + 2) % 4) ⟨5, 5⟩ ∧
    (point.rotate IntSem.wrapping ⟨1, 2⟩ 1 ⟨5, 5⟩ >>=
        fun q => q.rotate IntSem.wrapping 1 ⟨5, 5⟩ >>=
        fun q => q.rotate IntSem.wrapping 1 ⟨5, 5⟩ >>=
        fun q => q.rotate IntSem.wrapping 1 ⟨5, 5⟩) = Except.ok ⟨1, 2⟩ ∧
    (point.rotate IntSem.wrapping ⟨1, 2⟩ 1 ⟨5, 5⟩ >>=
        fun q => q.rotate IntSem.wrapping 3 ⟨5, 5⟩) = Except.ok ⟨1, 2⟩) :=
  ⟨by decide,
    rotate_compose IntSem.wrapping ⟨1, 2⟩ ⟨5, 5⟩ 3 2 (by decide) (by decide) (by decide)
      (by decide) (by decide) (by decide)⟩

/-! ## Rotation of the `dim` rectangle -/

theorem norm_of_between (m : IntSem) (v d : Int) (hd : m.fits d) (h0 : 0 ≤ v)
    (h1 : v < d) : m.norm v = v := by
  cases m
  · rfl
  · rw [fits_wrapping_iff] at hd
    simp only [INT_MIN, INT_MAX] at hd
    simp only [IntSem.norm, wrap32]
    omega

theorem norm_sub_inj (m : IntSem) (d u v : Int) (hu : m.fits u) (hv : m.fits v)
    (h : m.norm (d - u - 1) = m.norm (d - v - 1)) : u = v := by
  cases m
  · simp only [IntSem.norm] at h; omega
  · rw [fits_wrapping_iff] at hu hv
    simp only [INT_MIN, INT_MAX] at hu hv
    simp only [IntSem.norm, wrap32] at h
    omega

theorem rotate_injective (m : IntSem) (dim p q : point) (turns : Int) (hp : p.valid m)
    (hq : q.valid m) (h0 : 0 ≤ turns) (h4 : turns ≤ 4)
    (h : p.rotate m turns dim = q.rotate m turns dim) : p = q := by
  obtain ⟨px, py⟩ := p
  obtain ⟨qx, qy⟩ := q
  have hc : turns = 0 ∨ turns = 1 ∨ turns = 2 ∨ turns = 3 ∨ turns = 4 := by omega
  rcases hc with rfl | rfl | rfl | rfl | rfl
  · simpa [point.rotate] using h
  · simp only [point.rotate, int_sub, norm_sub_norm_left] at h
    simp at h
    rw [norm_sub_inj m dim.y py qy hp.2 hq.2 h.1, h.2]
  · simp only [point.rotate, int_sub, norm_sub_norm_left] at h
    simp at h
    rw [norm_sub_inj m dim.x px qx hp.1 hq.1 h.1, norm_sub_inj m dim.y py qy hp.2 hq.2 h.2]
  · simp only [point.rotate, int_sub, norm_sub_norm_left] at h
    simp at h
    rw [norm_sub_inj m dim.x px qx hp.1 hq.1 h.2, h.1]
  · simpa [point.rotate] using h

theorem rotate_into_rectangle (m : IntSem) (dim p : point) (hd : dim.valid m)
    (hx0 : 0 ≤ p.x) (hx1 : p.x < dim.x) (hy0 : 0 ≤ p.y) (hy1 : p.y < dim.y) :
    p.rotate m 1 dim = Except.ok ⟨dim.y - p.y - 1, p.x⟩ ∧
    p.rotate m 2 dim = Except.ok ⟨dim.x - p.x - 1, dim.y - p.y - 1⟩ ∧
    p.rotate m 3 dim = Except.ok ⟨p.y, dim.x - p.x - 1⟩ := by
  have ex := norm_of_between m (dim.x - p.x - 1) dim.x hd.1 (by omega) (by omega)
  have ey := norm_of_between m (dim.y - p.y - 1) dim.y hd.2 (by omega) (by omega)
  refine ⟨?_, ?_, ?_⟩ <;>
    simp [point.rotate, int_sub, norm_sub_norm_left, ex, ey]

theorem rotate_onto_rectangle (m : IntSem) (dim q : point) (hd : dim.valid m) :
    ((rectangle.mk ⟨0, 0⟩ ⟨dim.y, dim.x⟩).contains_half_open q = true →
      (∃ p, (rectangle.mk ⟨0, 0⟩ dim).contains_half_open p = true ∧
        p.rotate m 1 dim = Except.ok q) ∧
      (∃ p, (rectangle.mk ⟨0, 0⟩ dim).contains_half_open p = true ∧
        p.rotate m 3 dim = Except.ok q)) ∧
    ((rectangle.mk ⟨0, 0⟩ dim).contains_half_open q = true →
      ∃ p, (rectangle.mk ⟨0, 0⟩ dim).contains_half_open p = true ∧
        p.rotate m 2 dim = Except.ok q) := by
  obtain ⟨qx, qy⟩ := q
  simp only [rectangle.contains_half_open, Bool.and_eq_true, decide_eq_true_eq, ge_iff_le]
  refine ⟨?_, ?_⟩
  · rintro ⟨⟨⟨h1, h2⟩, h3⟩, h4⟩
    refine ⟨⟨⟨qy, dim.y - qx - 1⟩, ?_, ?_⟩, ⟨⟨dim.x - qy - 1, qx⟩, ?_, ?_⟩⟩
    · simp only; omega
    · rw [(rotate_into_rectangle m dim ⟨qy, dim.y - qx - 1⟩ hd h3 h4 (by simp only; omega)
        (by simp only; omega)).1]
      simp
      omega
    · simp only; omega
    · rw [(rotate_into_rectangle m dim ⟨dim.x - qy - 1, qx⟩ hd (by simp only; omega)
        (by simp only; omega) h1 h2).2.2]
      simp
      omega
  · rintro ⟨⟨⟨h1, h2⟩, h3⟩, h4⟩
    refine ⟨⟨dim.x - qx - 1, dim.y - qy - 1⟩, ?_, ?_⟩
    · simp only; omega
    · rw [(rotate_into_rectangle m dim ⟨dim.x - qx - 1, dim.y - qy - 1⟩ hd
        (by simp only; omega) (by simp only; omega) (by simp only; omega)
        (by simp only; omega)).2.1]
      simp
      omega

/-- C18: `rotate` maps the `dim` rectangle onto the (possibly transposed) rectangle
anchored at the origin: for every `dim` and every point `p` with `0 <= p.x < dim.x` and
`0 <= p.y < dim.y`, `p.rotate(2, dim)` lies in the half-open `rectangle({0,0}, dim)` and
`p.rotate(1, dim)`, `p.rotate(3, dim)` lie in the half-open
`rectangle({0,0}, {dim.y, dim.x})`, every point of these rectangles being reached; and
for each `turns` in `0..4` the map `p -> p.rotate(turns, dim)` is injective (on points
with `int` coordinates). -/
theorem rotate_maps_rectangle (m : IntSem) (dim p q : point) (turns : Int)
    (hd : dim.valid m) (hp : p.valid m) (hq : q.valid m) :
    ((rectangle.mk ⟨0, 0⟩ dim).contains_half_open p = true →
      ∃ r1 r2 r3, p.rotate m 1 dim = Except.ok r1 ∧ p.rotate m 2 dim = Except.ok r2 ∧
        p.rotate m 3 dim = Except.ok r3 ∧
        (rectangle.mk ⟨0, 0⟩ ⟨dim.y, dim.x⟩).contains_half_open r1 = true ∧
        (rectangle.mk ⟨0, 0⟩ dim).contains_half_open r2 = true ∧
        (rectangle.mk ⟨0, 0⟩ ⟨dim.y, dim.x⟩).contains_half_open r3 = true) ∧
    (0 ≤ turns → turns ≤ 4 → p.rotate m turns dim = q.rotate m turns dim → p = q) ∧
    ((rectangle.mk ⟨0, 0⟩ ⟨dim.y, dim.x⟩).contains_half_open q = true →
      (∃ p, (rectangle.mk ⟨0, 0⟩ dim).contains_half_open p = true ∧
        p.rotate m 1 dim = Except.ok q) ∧
      (∃ p, (rectangle.mk ⟨0, 0⟩ dim).contains_half_open p = true ∧
        p.rotate m 3 dim = Except.ok q)) ∧
    ((rectangle.mk ⟨0, 0⟩ dim).contains_half_open q = true →
      ∃ p, (rectangle.mk ⟨0, 0⟩ dim).contains_half_open p = true ∧
        p.rotate m 2 dim = Except.ok q) := by
  refine ⟨?_, ?_, (rotate_onto_rectangle m dim q hd).1, (rotate_onto_rectangle m dim q hd).2⟩
  · intro hin
    simp only [rectangle.contains_half_open, Bool.and_eq_true, decide_eq_true_eq,
      ge_iff_le] at hin
    obtain ⟨⟨⟨h1, h2⟩, h3⟩, h4⟩ := hin
    obtain ⟨e1, e2, e3⟩ := rotate_into_rectangle m dim p hd h1 h2 h3 h4
    refine ⟨_, _, _, e1, e2, e3, ?_, ?_, ?_⟩ <;>
      simp only [rectangle.contains_half_open, Bool.and_eq_true, decide_eq_true_eq,
        ge_iff_le] <;> omega
  · intro h0 h4 h
    exact rotate_injective m dim p q turns hp hq h0 h4 h

/-- Witness of C18 at `dim = (3, 5)`, `p = (2, 4)`, `q = (0, 1)`, `turns = 1` under
wrapping arithmetic: `p.rotate(1, dim)` is `(0, 2)` in `rectangle({0,0},{5,3})`. -/
theorem rotate_maps_rectangle_witness :
    point.rotate IntSem.wrapping ⟨2, 4⟩ 1 ⟨3, 5⟩ = Except.ok ⟨0, 2⟩ ∧
    (rectangle.mk ⟨0, 0⟩ ⟨5, 3⟩).contains_half_open ⟨0, 2⟩ = true ∧
    (∃ r1 r2 r3, point.rotate IntSem.wrapping ⟨2, 4⟩ 1 ⟨3, 5⟩ = Except.ok r1 ∧
        point.rotate IntSem.wrapping ⟨2, 4⟩ 2 ⟨3, 5⟩ = Except.ok r2 ∧
        point.rotate IntSem.wrapping ⟨2, 4⟩ 3 ⟨3, 5⟩ = Except.ok r3 ∧
        (rectangle.mk ⟨0, 0⟩ ⟨5, 3⟩).contains_half_open r1 = true ∧
        (rectangle.mk ⟨0, 0⟩ ⟨3, 5⟩).contains_half_open r2 = true ∧
        (rectangle.mk ⟨0, 0⟩ ⟨5, 3⟩).contains_half_open r3 = true) :=
  ⟨by decide, by decide,
    (rotate_maps_rectangle IntSem.wrapping ⟨3, 5⟩ ⟨2, 4⟩ ⟨0, 1⟩ 1 (by decide) (by decide)
      (by decide)).1 (by decide)⟩

/-- C19: one clockwise quarter turn about the origin (default `dim` `(1, 1)`) steps
through `four_adjacent_offsets` in the listed order: for every `i` in `0..3`,
`four_adjacent_offsets[i].rotate(1)` equals `four_adjacent_offsets[(i + 1) mod 4]`, i.e.
`point_north -> point_east -> point_south -> point_west -> point_north`. -/
theorem quarter_turn_steps_cardinals (m : IntSem) (i : Fin 4) :
    four_adjacent_offsets.length = 4 ∧
    (four_adjacent_offsets[i.val]?.map fun o => o.rotate m 1 rotate_default_dim) =
      four_adjacent_offsets[(i.val + 1) % 4]?.map Except.ok ∧
    four_adjacent_offsets[i.val]?.isSome = true ∧
    point_north.rotate m 1 rotate_default_dim = Except.ok point_east ∧
    point_east.rotate m 1 rotate_default_dim = Except.ok point_south ∧
    point_south.rotate m 1 rotate_default_dim = Except.ok point_west ∧
    point_west.rotate m 1 rotate_default_dim = Except.ok point_north := by
  cases m <;> revert i <;> decide

/-- C20: a box built from a rectangle and two z values is the product of the rectangle
with the z range: `box(R, z1, z2).contains_half_open(t)` holds iff
`R.contains_half_open(t.xy())` and `z1 <= t.z < z2`, and
`box(R, z1, z2).contains_inclusive(t)` holds iff `R.contains_inclusive(t.xy())` and
`z1 <= t.z <= z2`. -/
theorem box_of_rectangle_is_product (R : rectangle) (z1 z2 : Int) (t : tripoint) :
    ((box.of_rectangle R z1 z2).contains_half_open t = true ↔
      R.contains_half_open t.xy = true ∧ z1 ≤ t.z ∧ t.z < z2) ∧
    ((box.of_rectangle R z1 z2).contains_inclusive t = true ↔
      R.contains_inclusive t.xy = true ∧ z1 ≤ t.z ∧ t.z ≤ z2) ∧
    (box.of_rectangle R z1 z2).p_min = ⟨R.p_min.x, R.p_min.y, z1⟩ ∧
    (box.of_rectangle R z1 z2).p_max = ⟨R.p_max.x, R.p_max.y, z2⟩ := by
  refine ⟨?_, ?_, rfl, rfl⟩
  · simp only [box.of_rectangle, tripoint.of_point, box.contains_half_open,
      rectangle.contains_half_open, tripoint.xy, Bool.and_eq_true, decide_eq_true_eq,
      ge_iff_le]
    tauto
  · simp only [box.of_rectangle, tripoint.of_point, box.contains_inclusive,
      rectangle.contains_inclusive, tripoint.xy, Bool.and_eq_true, decide_eq_true_eq,
      ge_iff_le]
    tauto

end Cata
